import Mathlib

/-
Verification of the lithium exception runtime against its specification.

The development shallowly embeds the allocator layers
(src/heterogeneous_stack/array.rs, heap.rs, unbounded.rs), the thread-local
exception stack (src/stacked_exceptions.rs), the public API composition
(src/api.rs), and the foreign-exception discrimination logic of the concrete
backends (src/backend/itanium.rs, wasm.rs, emscripten.rs, panic.rs, seh.rs).

Machine integers are modelled as Nat with the 64-bit wrap made explicit where
the source uses wrapping arithmetic. Pointers are modelled by their addresses;
the bounded thread-local buffer lives below address 2^32 and the model's global
allocator hands out fresh blocks at and above 2^32, reflecting that the two
allocators are disjoint. Rust panics/aborts and the undefined behaviours that
the source documents as safety requirements are modelled as the `Err` error
codes of an `Except` monad.
-/

namespace Lithium

/-- Size of the usize address space on the modelled 64-bit target. -/
def USIZE : Nat := 2 ^ 64

/-- Largest value of isize, the limit enforced by Heap::alloc's size assert. -/
def isizeMax : Nat := 2 ^ 63 - 1

/-- Lowest address handed out by the model's global (heap) allocator. The
bounded thread-local buffer is required to live entirely below this address,
which models the disjointness of the two allocators. -/
def heapBase : Nat := 2 ^ 32

/-- Abnormal outcomes of the embedded code. The first group are Rust panics or
aborts raised by the source's own asserts; the `ub*` codes mark executions that
violate a documented safety contract of the source (undefined behaviour). -/
inductive Err where
  /-- assert_aligned failed: a size is not a multiple of the alignment. -/
  | unaligned
  /-- Heap::alloc was called with n = 0 (its assert_ne panics). -/
  | zeroAlloc
  /-- Heap::alloc's size assert failed (allocation larger than isize::MAX). -/
  | sizeOverflow
  /-- Stack::pop_unchecked with more bytes than allocated (unchecked_sub UB). -/
  | popUnderflow
  /-- Heap::dealloc of a block this allocator does not own (UB). -/
  | deallocInvalid
  /-- unwrap_unchecked of None in Stack::replace_last's shrink branch (UB). -/
  | replaceNone
  /-- pop of an exception that is not on top of the exception stack (UB). -/
  | ubPop
  /-- replace_last of an exception that is not on top of the stack (UB). -/
  | ubReplace
  /-- intercept caught an exception that is not the top of the stack (UB). -/
  | ubIntercept
  /-- use of an in-flight handle in violation of the nesting rules (UB). -/
  | ubHandle
  /-- an exception escaped a destructor running during unwinding (UB). -/
  | ubUnwindInDrop
  deriving DecidableEq, Repr

/-- Results of running embedded code: either a value or a panic/abort/UB code. -/
abbrev Res (α : Type) : Type := Except Err α

/-- usize::wrapping_sub on addresses. -/
def wrapSub (a b : Nat) : Nat := (a + (USIZE - b % USIZE)) % USIZE

/-- usize::next_multiple_of for the divisors used by the source (positive). -/
def roundUp (n k : Nat) : Nat := if k = 0 then n else (n + k - 1) / k * k

/-! ## Bounded inline buffer (src/heterogeneous_stack/array.rs) -/

/-- The array-backed stack allocator `Stack<AlignAs, CAPACITY>`. `base` is the
runtime address of the `data` array (aligned to `AlignAs`, as the `_align`
field forces); `len` is the `len` cell. The alignment `align_of::<AlignAs>()`
is passed to each operation as `al`, mirroring the `AlignAs` type parameter. -/
structure BoundedStack where
  capacity : Nat
  base : Nat
  len : Nat
  deriving DecidableEq, Repr

namespace BoundedStack

/-- Stack::try_push. `none` inside the result is the out-of-capacity case. The
pointer returned for a zero-byte allocation is `ptr::dangling_mut::<AlignAs>()`,
whose address is the alignment itself. -/
def tryPush (al : Nat) (s : BoundedStack) (n : Nat) : Res (Option Nat × BoundedStack) :=
  if n % al ≠ 0 then .error .unaligned
  else if n = 0 then .ok (some al, s)
  else if s.capacity - s.len < n then .ok (none, s)
  else .ok (some (s.base + s.len), { s with len := s.len + n })

/-- Stack::pop_unchecked. The source's `unchecked_sub` is UB when `n` exceeds
`len`; the model reports that case as `popUnderflow`. -/
def popUnchecked (al : Nat) (s : BoundedStack) (n : Nat) : Res BoundedStack :=
  if n % al ≠ 0 then .error .unaligned
  else if s.len < n then .error .popUnderflow
  else .ok { s with len := s.len - n }

/-- Stack::contains_allocated: unconditionally true for `n = 0`; otherwise the
wrapping-subtraction range check against the data array. -/
def containsAllocated (s : BoundedStack) (ptr n : Nat) : Bool :=
  if n = 0 then true
  else if n ≤ s.capacity then decide (wrapSub ptr s.base ≤ s.capacity - n)
  else false

end BoundedStack

/-! ## Heap fallback (src/heterogeneous_stack/heap.rs) -/

/-- Heap::alloc with the global allocator's reply `raw` passed in explicitly
(`raw = 0` models a null return, i.e. the allocator reporting out of memory).
The body mirrors the source: the alignment assert, the assert_ne on zero sizes,
the isize::MAX size assert, and then the raw allocation result returned to the
caller without inspection. -/
def heapAllocRaw (al n raw : Nat) : Res Nat :=
  if n % al ≠ 0 then .error .unaligned
  else if n = 0 then .error .zeroAlloc
  else if isizeMax < roundUp n al then .error .sizeOverflow
  else .ok raw

/-- State of the model's global allocator: fresh blocks are carved out at
increasing offsets above `heapBase` and the live blocks are recorded so that
`dealloc` can check its safety contract. -/
structure Heap where
  nextOff : Nat
  live : List (Nat × Nat)
  deriving DecidableEq, Repr

namespace Heap

/-- Heap::alloc of heterogeneous_stack/heap.rs, instantiated with the model's
never-failing global allocator (the out-of-memory reply is studied separately
through `heapAllocRaw`). -/
def alloc (al : Nat) (h : Heap) (n : Nat) : Res (Nat × Heap) :=
  match heapAllocRaw al n (heapBase + h.nextOff) with
  | .error e => .error e
  | .ok p => .ok (p, { nextOff := h.nextOff + n, live := (p, n) :: h.live })

/-- Heap::dealloc: releasing a block the allocator does not own is UB. -/
def dealloc (h : Heap) (ptr n : Nat) : Res Heap :=
  if (ptr, n) ∈ h.live then .ok { h with live := h.live.erase (ptr, n) }
  else .error .deallocInvalid

end Heap

/-! ## Heterogeneous stack (src/heterogeneous_stack/unbounded.rs) -/

/-- Stack<AlignAs> of unbounded.rs: the bounded buffer backed by the heap. -/
structure UStack where
  b : BoundedStack
  h : Heap
  deriving DecidableEq, Repr

namespace UStack

/-- Stack::push: try the bounded buffer, fall back to the heap. -/
def push (al : Nat) (u : UStack) (n : Nat) : Res (Nat × UStack) :=
  match u.b.tryPush al n with
  | .error e => .error e
  | .ok (some p, b2) => .ok (p, { u with b := b2 })
  | .ok (none, _) =>
    match Heap.alloc al u.h n with
    | .error e => .error e
    | .ok (p, h2) => .ok (p, { u with h := h2 })

/-- Stack::pop: route by contains_allocated. -/
def pop (al : Nat) (u : UStack) (ptr n : Nat) : Res UStack :=
  if u.b.containsAllocated ptr n then
    match u.b.popUnchecked al n with
    | .error e => .error e
    | .ok b2 => .ok { u with b := b2 }
  else
    match u.h.dealloc ptr n with
    | .error e => .error e
    | .ok h2 => .ok { u with h := h2 }

/-- Stack::replace_last. The source's `unwrap_unchecked` of the inner try_push
in the shrink-inline branch is modelled by the `replaceNone` error. -/
def replaceLast (al : Nat) (u : UStack) (oldPtr oldN newN : Nat) : Res (Nat × UStack) :=
  if newN % al ≠ 0 then .error .unaligned
  else if oldN = newN then .ok (oldPtr, u)
  else
    let wasOnStack := u.b.containsAllocated oldPtr oldN
    match u.pop al oldPtr oldN with
    | .error e => .error e
    | .ok u2 =>
      if wasOnStack = true ∧ newN < oldN then
        match u2.b.tryPush al newN with
        | .error e => .error e
        | .ok (some p, b3) => .ok (p, { u2 with b := b3 })
        | .ok (none, _) => .error .replaceNone
      else if wasOnStack = false ∧ oldN < newN then
        match Heap.alloc al u2.h newN with
        | .error e => .error e
        | .ok (p, h3) => .ok (p, { u2 with h := h3 })
      else
        u2.push al newN

end UStack

/-! ## Exception records and the thread-local stack (src/stacked_exceptions.rs) -/

/-- Build-time layout constants of the active backend: the alignment and size
of its `ExceptionHeader` type, and `offset_of!(Exception<E>, header)`. -/
structure Cfg where
  align : Nat
  headerSize : Nat
  hOff : Nat
  deriving DecidableEq, Repr

/-- get_alloc_size::<E>() of stacked_exceptions.rs: size_of::<Exception<E>>(),
i.e. the header plus the packed payload of size `sz`, rounded up to the header
alignment (which the source checks equals the alignment of Exception<E>). -/
def Cfg.allocSize (c : Cfg) (sz : Nat) : Nat := roundUp (c.headerSize + sz) c.align

/-- An in-flight exception handle: the address of its `Exception<E>` object and
the allocation size `get_alloc_size::<E>()` recorded at the intercept. -/
abbrev Handle : Type := Nat × Nat

/-- The per-thread state visible to stacked_exceptions.rs: the byte allocator
and the logical exception records (address, byte size, cause) with the top of
the stack first. `handles` lists the live in-flight handles, most recent first.
`log` and `caught` are ghost observations: the header pointers received by
intercept frames and the causes they observed, in order of observation. -/
structure Machine (V : Type) where
  ust : UStack
  recs : List (Nat × Nat × V)
  handles : List (V × Handle)
  log : List Nat
  caught : List V
  deriving DecidableEq, Repr

/-- push(cause) of stacked_exceptions.rs: allocate `get_alloc_size::<E>()`
bytes on the thread-local stack and write `Exception::new(cause)` there. -/
def excPush {V : Type} (c : Cfg) (m : Machine V) (v : V) (sz : Nat) :
    Res (Nat × Machine V) :=
  match UStack.push c.align m.ust (c.allocSize sz) with
  | .error e => .error e
  | .ok (ex, u) =>
    .ok (ex, { m with ust := u, recs := (ex, c.allocSize sz, v) :: m.recs })

/-- pop(ex) of stacked_exceptions.rs. Its safety contract requires `ex` to be
the top of the exception stack with the matching size; a violation is UB. -/
def excPop {V : Type} (c : Cfg) (m : Machine V) (ex n : Nat) : Res (Machine V) :=
  match m.recs with
  | [] => .error .ubPop
  | (a, s, _) :: rest =>
    if a = ex ∧ s = n then
      match UStack.pop c.align m.ust ex n with
      | .error e => .error e
      | .ok u => .ok { m with ust := u, recs := rest }
    else .error .ubPop

/-- replace_last(ex, cause) of stacked_exceptions.rs: replace the top record,
possibly changing its size, and write the new cause. Same top-of-stack safety
contract as pop. -/
def excReplaceLast {V : Type} (c : Cfg) (m : Machine V) (ex oldN : Nat) (v : V)
    (newSz : Nat) : Res (Nat × Machine V) :=
  match m.recs with
  | [] => .error .ubReplace
  | (a, s, _) :: rest =>
    if a = ex ∧ s = oldN then
      match UStack.replaceLast c.align m.ust ex oldN (c.allocSize newSz) with
      | .error e => .error e
      | .ok (ex2, u) =>
        .ok (ex2, { m with ust := u, recs := (ex2, c.allocSize newSz, v) :: rest })
    else .error .ubReplace

/-! ## Programs using the runtime

A first-order scenario language for user code built on the throw/intercept
API. Throwing pushes a record and starts unwinding with its header pointer,
which the backend contract (src/backend/mod.rs) delivers verbatim to the
nearest intercept frame. Caught causes travel through the machine's handle
stack; `withDrop` attaches a destructor that runs on both exits of its body,
as Rust drop glue does. -/
inductive Comp (V : Type) : Type where
  /-- return a value normally. -/
  | ret : V → Comp V
  /-- throw::<E>(v) where `sz` is size_of::<E>(). -/
  | thr : V → Nat → Comp V
  /-- intercept: run the body; on normal return continue with `onOk`, on catch
  push the (cause, handle) pair onto the handle stack and run `onErr`. -/
  | interceptT : Comp V → Comp V → Comp V → Comp V
  /-- drop the most recent in-flight handle (Drop for PointerRethrowHandle),
  then continue. -/
  | dropTop : Comp V → Comp V
  /-- rethrow the most recent in-flight handle with a new cause of size `sz`
  (RethrowHandle::rethrow for PointerRethrowHandle). -/
  | rethrowTop : V → Nat → Comp V
  /-- run the body with a destructor that runs when the body exits, normally
  or by unwinding. -/
  | withDrop : Comp V → Comp V → Comp V

/-- Result of running a computation: a normal value, or unwinding carrying the
header pointer that was handed to the backend's raise primitive. -/
inductive Out (V : Type) where
  | norm : V → Out V
  | unw : Nat → Out V
  deriving DecidableEq, Repr

/-- Operational semantics of the scenario language over the machine state.
Throwing follows ThrowByValue::throw for ActiveBackend (push, then raise the
header pointer); interception follows ThrowByValue::intercept (recover the
Exception<E> pointer from the header, read the cause once, return the handle).
The backend guarantee that the pointer passed to throw is returned verbatim by
the matching intercept is built into the rules. An
exception whose record is not on top of the stack at its intercept, a handle
used out of LIFO order, and an exception escaping a destructor during
unwinding are the safety violations of the source and evaluate to `ub*`. -/
def run {V : Type} (c : Cfg) : Comp V → Machine V → Res (Out V × Machine V)
  | .ret v, m => .ok (.norm v, m)
  | .thr v sz, m =>
    match excPush c m v sz with
    | .error e => .error e
    | .ok (ex, m1) => .ok (.unw (ex + c.hOff), m1)
  | .interceptT body onOk onErr, m =>
    match run c body m with
    | .error e => .error e
    | .ok (.norm _, m1) => run c onOk m1
    | .ok (.unw hdr, m1) =>
      match m1.recs with
      | [] => .error .ubIntercept
      | (addr, sz, v) :: _ =>
        if addr + c.hOff = hdr then
          run c onErr { m1 with
            handles := (v, (addr, sz)) :: m1.handles
            log := m1.log ++ [hdr]
            caught := m1.caught ++ [v] }
        else .error .ubIntercept
  | .dropTop k, m =>
    match m.handles with
    | [] => .error .ubHandle
    | (_, hd) :: hs =>
      match excPop c m hd.1 hd.2 with
      | .error e => .error e
      | .ok m1 => run c k { m1 with handles := hs }
  | .rethrowTop v sz, m =>
    match m.handles with
    | [] => .error .ubHandle
    | (_, hd) :: hs =>
      match excReplaceLast c m hd.1 hd.2 v sz with
      | .error e => .error e
      | .ok (ex, m1) => .ok (.unw (ex + c.hOff), { m1 with handles := hs })
  | .withDrop body dtor, m =>
    match run c body m with
    | .error e => .error e
    | .ok (.norm v, m1) =>
      match run c dtor m1 with
      | .error e => .error e
      | .ok (.norm _, m2) => .ok (.norm v, m2)
      | .ok (.unw hdr, m2) => .ok (.unw hdr, m2)
    | .ok (.unw hdr, m1) =>
      match run c dtor m1 with
      | .error e => .error e
      | .ok (.norm _, m2) => .ok (.unw hdr, m2)
      | .ok (.unw _, _) => .error .ubUnwindInDrop

/-- catch as api.rs composes it inside a computation: intercept, and in the
error case drop the in-flight handle before continuing. -/
def catchT {V : Type} (body onOk onErr : Comp V) : Comp V :=
  .interceptT body onOk (.dropTop onErr)

/-! ## Public API (src/api.rs) -/

/-- intercept::<R, E>(func): run the function; an unwind is caught at this
frame, the cause is read out of the top record and returned together with the
in-flight handle, without removing the record from the stack. -/
def interceptApi {V : Type} (c : Cfg) (body : Comp V) (m : Machine V) :
    Res (Except (V × Handle) V × Machine V) :=
  match run c body m with
  | .error e => .error e
  | .ok (.norm r, m1) => .ok (.ok r, m1)
  | .ok (.unw hdr, m1) =>
    match m1.recs with
    | [] => .error .ubIntercept
    | (addr, sz, v) :: _ =>
      if addr + c.hOff = hdr then
        .ok (.error (v, (addr, sz)),
          { m1 with log := m1.log ++ [hdr], caught := m1.caught ++ [v] })
      else .error .ubIntercept

/-- Drop for PointerRethrowHandle: pop the handle's record off the stack. -/
def dropHandle {V : Type} (c : Cfg) (hd : Handle) (m : Machine V) :
    Res (Machine V) :=
  excPop c m hd.1 hd.2

/-- catch::<R, E>(func) as compiled: the behaviour of
`intercept(func).map_err(|(cause, _)| cause)` written out over the machine,
with the handle's drop inlined into the error path. -/
def catchApi {V : Type} (c : Cfg) (body : Comp V) (m : Machine V) :
    Res (Except V V × Machine V) :=
  match run c body m with
  | .error e => .error e
  | .ok (.norm r, m1) => .ok (.ok r, m1)
  | .ok (.unw hdr, m1) =>
    match m1.recs with
    | [] => .error .ubIntercept
    | (addr, sz, v) :: _ =>
      if addr + c.hOff = hdr then
        match excPop c
            { m1 with log := m1.log ++ [hdr], caught := m1.caught ++ [v] }
            addr sz with
        | .error e => .error e
        | .ok m2 => .ok (.error v, m2)
      else .error .ubIntercept

/-- catch as the specification words it: intercept, then in the error case
drop the in-flight handle and surface only the payload. -/
def catchViaIntercept {V : Type} (c : Cfg) (body : Comp V) (m : Machine V) :
    Res (Except V V × Machine V) :=
  match interceptApi c body m with
  | .error e => .error e
  | .ok (.ok r, m1) => .ok (.ok r, m1)
  | .ok (.error (cause, hd), m1) =>
    match dropHandle c hd m1 with
    | .error e => .error e
    | .ok m2 => .ok (.error cause, m2)

/-! ## Foreign-exception discrimination in the backends (src/backend/) -/

/-- The class word of backend/itanium.rs: u64::from_ne_bytes of the bytes
RUSTIEX followed by a NUL, on a little-endian target. -/
def LITHIUM_EXCEPTION_CLASS : Nat :=
  0x52 + 0x55 * 2 ^ 8 + 0x53 * 2 ^ 16 + 0x54 * 2 ^ 24 +
    0x49 * 2 ^ 32 + 0x45 * 2 ^ 40 + 0x58 * 2 ^ 48

/-- Outcome of a backend's intercept on a caught exception. -/
inductive CaughtAction where
  /-- the same exception object, re-raised unmodified via the native raise or
  rethrow primitive. -/
  | rethrown : Nat → CaughtAction
  /-- identified as a Lithium exception and returned to the caller. -/
  | own : Nat → CaughtAction
  deriving DecidableEq, Repr

/-- Discrimination performed by the Itanium backend's intercept
(backend/itanium.rs): read the 8-byte class word at the caught pointer and
re-raise anything that is not LITHIUM_EXCEPTION_CLASS via
_Unwind_RaiseException, pointer untouched. -/
def itaniumCaught (classWord ex : Nat) : CaughtAction :=
  if classWord ≠ LITHIUM_EXCEPTION_CLASS then .rethrown ex else .own ex

/-- Discrimination performed by the Wasm backend's intercept
(backend/wasm.rs): an even address is a foreign exception and is rethrown
as-is; an odd address is ours with the marker bit stripped. -/
def wasmCaught (ex : Nat) : CaughtAction :=
  if ex % 2 = 0 then .rethrown ex else .own (ex - 1)

/-- Discrimination performed by the Emscripten backend's intercept
(backend/emscripten.rs): compare the header's type-info pointer against the
address of the crate's static TYPE_INFO; a mismatch is rethrown unmodified via
__cxa_rethrow. -/
def emscriptenCaught (exTypeInfo ourTypeInfo ex : Nat) : CaughtAction :=
  if exTypeInfo ≠ ourTypeInfo then .rethrown ex else .own ex

/-- Outcome of the host-panic backend's intercept on a caught panic payload. -/
inductive PanicAction (V : Type) where
  /-- resume_unwind with the original, unmodified payload box. -/
  | resumed : V → PanicAction V
  /-- the payload was the crate-local LithiumMarker: recover the header. -/
  | own : Nat → PanicAction V
  deriving DecidableEq, Repr

/-- Discrimination performed by the host-panic backend (backend/panic.rs): a
payload that downcasts to LithiumMarker is ours (the marker pointer is the
header); anything else is resumed unchanged. The caught payload is modelled as
either a marker pointer (left) or a foreign payload (right). -/
def panicCaught {V : Type} (ex : Nat ⊕ V) : PanicAction V :=
  match ex with
  | .inl hdr => .own hdr
  | .inr payload => .resumed payload

/-- A caught `rust_panic` C++ exception as the SEH backend's catch callback
sees it: the canary written at throw time and the payload. -/
structure SehExc (V : Type) where
  canary : Nat
  payload : V
  deriving DecidableEq, Repr

/-- Outcome of the SEH backend's catch callback. -/
inductive SehAction (V : Type) where
  /-- abort(): the process is terminated with a diagnostic. -/
  | abortForeign : SehAction V
  /-- a Rust panic, re-raised afterwards through __rust_start_panic. -/
  | rustPanicRethrown : V → SehAction V
  /-- ours: the cause is moved out and returned with a rethrow handle. -/
  | own : V → SehAction V
  deriving DecidableEq, Repr

/-- Discrimination performed by the SEH backend's intercept (backend/seh.rs):
a null exception pointer denotes a foreign, non-rust_panic exception and the
callback aborts the process; a canary that does not point at THROW_INFO
denotes a Rust panic, which is re-raised later through __rust_start_panic;
otherwise the exception is ours. `throwInfoAddr` is the address of the static
THROW_INFO; `none` models the null pointer. -/
def sehCaught {V : Type} (throwInfoAddr : Nat) (ex : Option (SehExc V)) :
    SehAction V :=
  match ex with
  | none => .abortForeign
  | some e =>
    if e.canary ≠ throwInfoAddr then .rustPanicRethrown e.payload
    else .own e.payload

/-- A concrete layout fixture: the Itanium header on x86-64 (32-byte header,
16-byte alignment, header at offset 0 of Exception<E>). -/
def witCfg : Cfg := ⟨16, 32, 0⟩

/-- A concrete fresh thread state: empty 4096-byte bounded buffer at address
65536, empty heap, no records in flight. -/
def witM : Machine Nat := ⟨⟨⟨4096, 65536, 0⟩, ⟨0, []⟩⟩, [], [], [], []⟩

/-! ## Helper lemmas -/

lemma roundUp_mod (n k : Nat) (hk : 0 < k) : roundUp n k % k = 0 := by
  unfold roundUp
  rw [if_neg (Nat.pos_iff_ne_zero.mp hk)]
  exact Nat.mul_mod_left _ _

lemma roundUp_eq_self (n k : Nat) (hk : 0 < k) (hn : n % k = 0) :
    roundUp n k = n := by
  obtain ⟨q, rfl⟩ := Nat.dvd_of_mod_eq_zero hn
  unfold roundUp
  rw [if_neg (Nat.pos_iff_ne_zero.mp hk),
    show k * q + k - 1 = k * q + (k - 1) by omega, Nat.mul_add_div hk,
    Nat.div_eq_of_lt (by omega), Nat.add_zero, Nat.mul_comm]

lemma wrapSub_eq (a b : Nat) (hba : b ≤ a) (ha : a < USIZE) :
    wrapSub a b = a - b := by
  have hb : b < USIZE := lt_of_le_of_lt hba ha
  unfold wrapSub
  rw [Nat.mod_eq_of_lt hb, show a + (USIZE - b) = USIZE + (a - b) by omega,
    Nat.add_mod_left]
  exact Nat.mod_eq_of_lt (by omega)

lemma heapBase_add_lt_USIZE : heapBase + 2 ^ 63 < USIZE := by
  norm_num [heapBase, USIZE]

lemma containsAllocated_zero (s : BoundedStack) (ptr : Nat) :
    s.containsAllocated ptr 0 = true := rfl

lemma containsAllocated_inline (s : BoundedStack) (ptr n : Nat) (h0 : 0 < n)
    (hlo : s.base ≤ ptr) (hhi : ptr + n ≤ s.base + s.capacity)
    (hcap : s.base + s.capacity ≤ heapBase) :
    s.containsAllocated ptr n = true := by
  have hcapn : n ≤ s.capacity := by omega
  have hptrlt : ptr < USIZE := by
    have h := heapBase_add_lt_USIZE
    omega
  simp only [BoundedStack.containsAllocated]
  rw [if_neg (by omega : ¬ n = 0), if_pos hcapn, wrapSub_eq _ _ hlo hptrlt]
  simp only [decide_eq_true_eq]
  omega

lemma containsAllocated_heap (s : BoundedStack) (ptr n : Nat) (h0 : 0 < n)
    (hcap : s.base + s.capacity ≤ heapBase) (hlo : heapBase ≤ ptr)
    (hhi : ptr < USIZE) :
    s.containsAllocated ptr n = false := by
  simp only [BoundedStack.containsAllocated]
  rw [if_neg (by omega : ¬ n = 0)]
  by_cases hcn : n ≤ s.capacity
  · rw [if_pos hcn, wrapSub_eq _ _ (by omega) hhi]
    simp only [decide_eq_false_iff_not]
    omega
  · rw [if_neg hcn]

/-- Pushing onto the heterogeneous stack under its invariants: the allocation
succeeds, the bounded-buffer invariants are preserved, the heap cursor moves
by at most the requested size, and the matching pop — performed from any later
allocator state that has the same bounded stack and the same live heap blocks
— removes exactly this allocation, restoring the original bounded length and
live-block list. -/
lemma UStack.push_spec (al : Nat) (u : UStack) (n : Nat)
    (hal : 0 < al) (hna : n % al = 0)
    (hlenA : u.b.len % al = 0) (hlenLe : u.b.len ≤ u.b.capacity)
    (hrange : u.b.base + u.b.capacity ≤ heapBase)
    (hfit : u.h.nextOff + n < 2 ^ 63) :
    ∃ ex u1,
      UStack.push al u n = .ok (ex, u1)
      ∧ u1.b.capacity = u.b.capacity
      ∧ u1.b.base = u.b.base
      ∧ u1.b.len % al = 0
      ∧ u1.b.len ≤ u1.b.capacity
      ∧ u.h.nextOff ≤ u1.h.nextOff
      ∧ u1.h.nextOff ≤ u.h.nextOff + n
      ∧ ∀ u2 : UStack, u2.b = u1.b → u2.h.live = u1.h.live →
          UStack.pop al u2 ex n = .ok ⟨u.b, ⟨u2.h.nextOff, u.h.live⟩⟩ := by
  have halne : ¬ n % al ≠ 0 := by simp [hna]
  by_cases hn0 : n = 0
  · subst hn0
    have hpush : UStack.push al u 0 = .ok (al, u) := by
      unfold UStack.push BoundedStack.tryPush
      rw [if_neg halne, if_pos rfl]
    refine ⟨al, u, hpush, rfl, rfl, hlenA, hlenLe, Nat.le_refl _, by omega, ?_⟩
    intro u2 hb hl
    obtain ⟨b2, no2, l2⟩ := u2
    simp only at hb hl
    subst hb
    subst hl
    simp [UStack.pop, containsAllocated_zero, BoundedStack.popUnchecked]
  · by_cases hle : n ≤ u.b.capacity - u.b.len
    · have htp : BoundedStack.tryPush al u.b n
          = .ok (some (u.b.base + u.b.len),
              ⟨u.b.capacity, u.b.base, u.b.len + n⟩) := by
        unfold BoundedStack.tryPush
        rw [if_neg halne, if_neg hn0, if_neg (by omega)]
      have hpush : UStack.push al u n
          = .ok (u.b.base + u.b.len,
              ⟨⟨u.b.capacity, u.b.base, u.b.len + n⟩, u.h⟩) := by
        unfold UStack.push
        rw [htp]
      refine ⟨u.b.base + u.b.len, ⟨⟨u.b.capacity, u.b.base, u.b.len + n⟩, u.h⟩,
        hpush, rfl, rfl, (by simp [Nat.add_mod, hlenA, hna]),
        (show u.b.len + n ≤ u.b.capacity by omega), Nat.le_refl _,
        (show u.h.nextOff ≤ u.h.nextOff + n by omega), ?_⟩
      intro u2 hb hl
      obtain ⟨b2, no2, l2⟩ := u2
      simp only at hb hl
      subst hb
      subst hl
      have hcontains : BoundedStack.containsAllocated
          ⟨u.b.capacity, u.b.base, u.b.len + n⟩ (u.b.base + u.b.len) n = true :=
        containsAllocated_inline _ _ _ (by omega) (by simp)
          (by simp; omega) (by simpa using hrange)
      have hpop : BoundedStack.popUnchecked al
          ⟨u.b.capacity, u.b.base, u.b.len + n⟩ n = .ok u.b := by
        unfold BoundedStack.popUnchecked
        rw [if_neg halne, if_neg (by simp)]
        simp
      simp [UStack.pop, hcontains, hpop]
    · have htp : BoundedStack.tryPush al u.b n = .ok (none, u.b) := by
        unfold BoundedStack.tryPush
        rw [if_neg halne, if_neg hn0, if_pos (by omega)]
      have halloc : Heap.alloc al u.h n
          = .ok (heapBase + u.h.nextOff,
              ⟨u.h.nextOff + n, (heapBase + u.h.nextOff, n) :: u.h.live⟩) := by
        unfold Heap.alloc heapAllocRaw
        rw [if_neg halne, if_neg hn0,
          if_neg (by rw [roundUp_eq_self n al hal hna]; unfold isizeMax; omega)]
      have hpush : UStack.push al u n
          = .ok (heapBase + u.h.nextOff,
              ⟨u.b, ⟨u.h.nextOff + n, (heapBase + u.h.nextOff, n) :: u.h.live⟩⟩) := by
        unfold UStack.push
        rw [htp, halloc]
      refine ⟨heapBase + u.h.nextOff,
        ⟨u.b, ⟨u.h.nextOff + n, (heapBase + u.h.nextOff, n) :: u.h.live⟩⟩,
        hpush, rfl, rfl, hlenA, hlenLe,
        (show u.h.nextOff ≤ u.h.nextOff + n by omega), Nat.le_refl _, ?_⟩
      intro u2 hb hl
      obtain ⟨b2, no2, l2⟩ := u2
      simp only at hb hl
      subst hb
      subst hl
      have hcontains : BoundedStack.containsAllocated u.b
          (heapBase + u.h.nextOff) n = false :=
        containsAllocated_heap _ _ _ (by omega) hrange (by omega)
          (by have h := heapBase_add_lt_USIZE; omega)
      have hdeall : Heap.dealloc
          ⟨no2, (heapBase + u.h.nextOff, n) :: u.h.live⟩
          (heapBase + u.h.nextOff) n = .ok ⟨no2, u.h.live⟩ := by
        unfold Heap.dealloc
        rw [if_pos (List.mem_cons_self _ _)]
        simp [List.erase_cons_head]
      simp [UStack.pop, hcontains, hdeall]

/-- Running `catch (|| throw v)` inside a computation — the derived catchT
form — delivers `v` to the error continuation and restores the machine's
visible state, extending only the ghost logs and possibly the heap cursor. -/
lemma run_catchT_thr {V : Type} (c : Cfg) (m : Machine V) (v : V) (sz : Nat)
    (onOk onErr : Comp V)
    (hal : 0 < c.align)
    (hlenA : m.ust.b.len % c.align = 0)
    (hlenLe : m.ust.b.len ≤ m.ust.b.capacity)
    (hrange : m.ust.b.base + m.ust.b.capacity ≤ heapBase)
    (hfit : m.ust.h.nextOff + c.allocSize sz < 2 ^ 63) :
    ∃ hdr no1,
      run c (catchT (.thr v sz) onOk onErr) m
        = run c onErr ⟨⟨m.ust.b, ⟨no1, m.ust.h.live⟩⟩, m.recs, m.handles,
            m.log ++ [hdr], m.caught ++ [v]⟩
      ∧ m.ust.h.nextOff ≤ no1 ∧ no1 ≤ m.ust.h.nextOff + c.allocSize sz := by
  obtain ⟨ex, u1, hpush, hcap, hbase, hlA, hlL, hno1, hno2, hpop⟩ :=
    UStack.push_spec c.align m.ust (c.allocSize sz) hal
      (roundUp_mod _ _ hal) hlenA hlenLe hrange hfit
  refine ⟨ex + c.hOff, u1.h.nextOff, ?_, hno1, hno2⟩
  have hpop1 := hpop u1 rfl rfl
  simp [catchT, run, excPush, excPop, hpush, hpop1]

/-- Stepping lemma for drop glue: when the body unwinds and the destructor
returns normally, the unwinding continues with the destructor's state. -/
lemma run_withDrop_unw {V : Type} (c : Cfg) (body dtor : Comp V)
    (m m1 m2 : Machine V) (hdr : Nat) (v : V)
    (hb : run c body m = .ok (.unw hdr, m1))
    (hd : run c dtor m1 = .ok (.norm v, m2)) :
    run c (.withDrop body dtor) m = .ok (.unw hdr, m2) := by
  simp only [run, hb, hd]

/-! ## Claims -/

/-- C1: for every payload type E and value v, catch::<(), E>(|| throw(v))
returns Err(w) with w equal to v, and the thread state it leaves behind is
the one it started from (bounded buffer, live heap blocks, record stack and
handle stack all restored). The model is agnostic in the payload type V and
its size, so zero-sized payloads and payloads that are not Send or not
'static are covered; equality of the recovered value is the model's rendering
of bitwise equality, as the cause is moved with unaligned loads and stores and
never inspected. The two bound hypotheses say that the record fits the model's
finite address space. -/
theorem C1_round_trip {V : Type} (c : Cfg) (m : Machine V) (v : V) (szE : Nat)
    (hal : 0 < c.align)
    (hlenA : m.ust.b.len % c.align = 0)
    (hlenLe : m.ust.b.len ≤ m.ust.b.capacity)
    (hrange : m.ust.b.base + m.ust.b.capacity ≤ heapBase)
    (hfit : m.ust.h.nextOff + c.allocSize szE < 2 ^ 63) :
    ∃ mf, catchApi c (.thr v szE) m = .ok (.error v, mf)
      ∧ mf.ust.b = m.ust.b
      ∧ mf.ust.h.live = m.ust.h.live
      ∧ mf.recs = m.recs
      ∧ mf.handles = m.handles := by
  obtain ⟨ex, u1, hpush, hcap, hbase, hlA, hlL, hno1, hno2, hpop⟩ :=
    UStack.push_spec c.align m.ust (c.allocSize szE) hal
      (roundUp_mod _ _ hal) hlenA hlenLe hrange hfit
  have hpop1 := hpop u1 rfl rfl
  refine ⟨⟨⟨m.ust.b, ⟨u1.h.nextOff, m.ust.h.live⟩⟩, m.recs, m.handles,
    m.log ++ [ex + c.hOff], m.caught ++ [v]⟩, ?_, rfl, rfl, rfl, rfl⟩
  simp [catchApi, run, excPush, excPop, hpush, hpop1]

/-- C1 witness: a concrete round trip through the fixture layout. -/
theorem C1_round_trip_witness :
    ∃ mf, catchApi witCfg (.thr 7 5) witM = .ok (.error 7, mf)
      ∧ mf.ust.b = witM.ust.b
      ∧ mf.ust.h.live = witM.ust.h.live
      ∧ mf.recs = witM.recs
      ∧ mf.handles = witM.handles :=
  C1_round_trip witCfg witM 7 5 (by decide) (by decide) (by decide)
    (by decide) (by decide)

/-- C2: the claim says that when the underlying allocator reports out of
memory during a record allocation, the process aborts with a diagnostic, and
that the allocation path never returns a null pointer to its caller. The code
does not do this: Heap::alloc returns the result of alloc::alloc without a
null check, so the allocator's null reply on OOM is passed straight back as
the allocation result (and would then be written through by push). This
theorem evaluates the embedded Heap::alloc body at an aligned, positive size
with the allocator replying null: the function returns the null pointer
instead of aborting, contradicting both the claim and the function's own
documentation comment. -/
theorem C2_oom_returns_null : heapAllocRaw 8 8 0 = .ok 0 := rfl

/-- C3 counterexample: it is false that every backend re-raises a caught
foreign exception and never terminates the process because of it — the SEH
backend's catch callback aborts on a foreign (null) exception object. -/
theorem C3_counterexample :
    ¬ ∀ (ti : Nat) (ex : Option (SehExc Unit)),
        sehCaught ti ex ≠ SehAction.abortForeign := by
  intro h
  exact h 0 none rfl

/-- C3 amended: the Itanium, Wasm and Emscripten backends re-raise a caught
foreign exception immediately via the native raise or rethrow primitive with
the exception object unmodified, and the host-panic backend resumes a foreign
panic with its original payload; the SEH backend instead re-raises Rust
panics through the low-level start-panic primitive but aborts the process
with a diagnostic when it catches any other foreign exception. In no case is
a foreign exception returned to the caller as a caught error. -/
theorem C3_amended_foreign :
    (∀ classWord ex, classWord ≠ LITHIUM_EXCEPTION_CLASS →
      itaniumCaught classWord ex = .rethrown ex)
    ∧ (∀ ex, ex % 2 = 0 → wasmCaught ex = .rethrown ex)
    ∧ (∀ t o ex, t ≠ o → emscriptenCaught t o ex = .rethrown ex)
    ∧ (∀ (V : Type) (p : V), panicCaught (Sum.inr p) = .resumed p)
    ∧ (∀ (V : Type) (ti : Nat) (e : SehExc V), e.canary ≠ ti →
        sehCaught ti (some e) = .rustPanicRethrown e.payload)
    ∧ (∀ (V : Type) (ti : Nat), sehCaught (V := V) ti none = .abortForeign) := by
  refine ⟨?_, ?_, ?_, ?_, ?_, ?_⟩
  · intro classWord ex h
    simp [itaniumCaught, h]
  · intro ex h
    simp [wasmCaught, h]
  · intro t o ex h
    simp [emscriptenCaught, h]
  · intro V p
    rfl
  · intro V ti e h
    simp [sehCaught, h]
  · intro V ti
    rfl

/-- C3 witness: the amended statement applied at concrete inputs. -/
theorem C3_amended_foreign_witness :
    itaniumCaught 0 9000 = .rethrown 9000
    ∧ wasmCaught 4096 = .rethrown 4096
    ∧ emscriptenCaught 1 2 77 = .rethrown 77
    ∧ panicCaught (V := Nat) (Sum.inr 5) = .resumed 5
    ∧ sehCaught (V := Nat) 3 (some ⟨4, 11⟩) = .rustPanicRethrown 11
    ∧ sehCaught (V := Nat) 3 none = .abortForeign :=
  ⟨C3_amended_foreign.1 0 9000 (by decide),
    C3_amended_foreign.2.1 4096 (by decide),
    C3_amended_foreign.2.2.1 1 2 77 (by decide),
    C3_amended_foreign.2.2.2.1 Nat 5,
    C3_amended_foreign.2.2.2.2.1 Nat 3 ⟨4, 11⟩ (by decide),
    C3_amended_foreign.2.2.2.2.2 Nat 3⟩

/-- C4: nested exceptions are delivered strictly LIFO. When a destructor
running while unwinding from a raise R1 raises R2 (catching it within the
destructor, as the safety rules require), the nearest enclosing catch — the
one inside the destructor — observes R2, and the next enclosing catch after
that observes R1: the ghost observation log ends with v2 followed by v1, the
outer catch returns Err v1, and the thread state is fully restored. -/
theorem C4_nested_raises_lifo {V : Type} (c : Cfg) (m : Machine V)
    (v1 v2 : V) (sz1 sz2 : Nat)
    (hal : 0 < c.align)
    (hlenA : m.ust.b.len % c.align = 0)
    (hlenLe : m.ust.b.len ≤ m.ust.b.capacity)
    (hrange : m.ust.b.base + m.ust.b.capacity ≤ heapBase)
    (hfit : m.ust.h.nextOff + c.allocSize sz1 + c.allocSize sz2 < 2 ^ 63) :
    ∃ mf, catchApi c
        (.withDrop (.thr v1 sz1) (catchT (.thr v2 sz2) (.ret v2) (.ret v2))) m
      = .ok (.error v1, mf)
      ∧ mf.caught = m.caught ++ [v2, v1]
      ∧ mf.ust.b = m.ust.b
      ∧ mf.ust.h.live = m.ust.h.live
      ∧ mf.recs = m.recs
      ∧ mf.handles = m.handles := by
  obtain ⟨ex1, u1, hpush1, hcap1, hbase1, hlA1, hlL1, hno1a, hno1b, hpop1⟩ :=
    UStack.push_spec c.align m.ust (c.allocSize sz1) hal
      (roundUp_mod _ _ hal) hlenA hlenLe hrange (by omega)
  obtain ⟨hdr2, no2, hinner, hno2a, hno2b⟩ :=
    run_catchT_thr c
      ⟨u1, (ex1, c.allocSize sz1, v1) :: m.recs, m.handles, m.log, m.caught⟩
      v2 sz2 (.ret v2) (.ret v2) hal hlA1 hlL1
      (show u1.b.base + u1.b.capacity ≤ heapBase by rw [hbase1, hcap1]; exact hrange)
      (show u1.h.nextOff + c.allocSize sz2 < 2 ^ 63 by omega)
  have hpop1i := hpop1 ⟨u1.b, ⟨no2, u1.h.live⟩⟩ rfl rfl
  have hbody : run c (Comp.thr v1 sz1) m
      = .ok (.unw (ex1 + c.hOff),
          ⟨u1, (ex1, c.allocSize sz1, v1) :: m.recs, m.handles, m.log,
            m.caught⟩) := by
    simp [run, excPush, hpush1]
  have hdtor : run c (catchT (Comp.thr v2 sz2) (Comp.ret v2) (Comp.ret v2))
      ⟨u1, (ex1, c.allocSize sz1, v1) :: m.recs, m.handles, m.log, m.caught⟩
      = .ok (.norm v2,
          ⟨⟨u1.b, ⟨no2, u1.h.live⟩⟩, (ex1, c.allocSize sz1, v1) :: m.recs,
            m.handles, m.log ++ [hdr2], m.caught ++ [v2]⟩) := by
    rw [hinner]
    simp [run]
  have hwd := run_withDrop_unw c _ _ m _ _ _ _ hbody hdtor
  refine ⟨⟨⟨m.ust.b, ⟨no2, m.ust.h.live⟩⟩, m.recs, m.handles,
    m.log ++ [hdr2, ex1 + c.hOff], m.caught ++ [v2, v1]⟩,
    ?_, rfl, rfl, rfl, rfl, rfl⟩
  simp [catchApi, hwd, excPop, hpop1i]

/-- C4 witness: a concrete nested raise through the fixture layout, with the
inner record spilling past the point of the outer one. -/
theorem C4_nested_raises_lifo_witness :
    ∃ mf, catchApi witCfg
        (.withDrop (.thr 1 4) (catchT (.thr 2 100) (.ret 2) (.ret 2))) witM
      = .ok (.error 1, mf)
      ∧ mf.caught = witM.caught ++ [2, 1]
      ∧ mf.ust.b = witM.ust.b
      ∧ mf.ust.h.live = witM.ust.h.live
      ∧ mf.recs = witM.recs
      ∧ mf.handles = witM.handles :=
  C4_nested_raises_lifo witCfg witM 1 2 4 100 (by decide) (by decide)
    (by decide) (by decide) (by decide)

/-- C5: replacing the top element of the exception stack with one of equal
byte size returns the same pointer and leaves the allocator untouched (first
conjunct, the short-circuit of Stack::replace_last), and consequently a
rethrow whose new payload type has the same size as the intercepted one
reuses the record slot: the header pointer received at the outer catch is the
very pointer received at the inner intercept (the ghost log records the same
header twice), and the outer catch returns the new payload. -/
theorem C5_rethrow_preserves_address {V : Type} (c : Cfg) (m : Machine V)
    (v1 v2 : V) (szE szF : Nat) (hsz : szF = szE)
    (hal : 0 < c.align)
    (hlenA : m.ust.b.len % c.align = 0)
    (hlenLe : m.ust.b.len ≤ m.ust.b.capacity)
    (hrange : m.ust.b.base + m.ust.b.capacity ≤ heapBase)
    (hfit : m.ust.h.nextOff + c.allocSize szE < 2 ^ 63) :
    (∀ (al : Nat) (u : UStack) (p n : Nat), n % al = 0 →
        UStack.replaceLast al u p n n = .ok (p, u))
    ∧ ∃ mf hdr,
        catchApi c (.interceptT (.thr v1 szE) (.ret v1) (.rethrowTop v2 szF)) m
          = .ok (.error v2, mf)
        ∧ mf.log = m.log ++ [hdr, hdr]
        ∧ mf.ust.b = m.ust.b
        ∧ mf.ust.h.live = m.ust.h.live
        ∧ mf.recs = m.recs
        ∧ mf.handles = m.handles := by
  subst hsz
  constructor
  · intro al u p n hn
    unfold UStack.replaceLast
    rw [if_neg (by simp [hn]), if_pos rfl]
  · obtain ⟨ex, u1, hpush, hcap, hbase, hlA, hlL, hno1, hno2, hpop⟩ :=
      UStack.push_spec c.align m.ust (c.allocSize szF) hal
        (roundUp_mod _ _ hal) hlenA hlenLe hrange hfit
    have hrepl : UStack.replaceLast c.align u1 ex (c.allocSize szF)
        (c.allocSize szF) = .ok (ex, u1) := by
      unfold UStack.replaceLast
      rw [if_neg (by simp [Cfg.allocSize, roundUp_mod _ _ hal]), if_pos rfl]
    have hpop1 := hpop u1 rfl rfl
    refine ⟨⟨⟨m.ust.b, ⟨u1.h.nextOff, m.ust.h.live⟩⟩, m.recs, m.handles,
      m.log ++ [ex + c.hOff, ex + c.hOff], m.caught ++ [v1, v2]⟩, ex + c.hOff,
      ?_, rfl, rfl, rfl, rfl, rfl⟩
    simp [catchApi, run, excPush, excPop, excReplaceLast, hpush, hrepl, hpop1]

/-- C5 witness: a concrete same-size rethrow through the fixture layout. -/
theorem C5_rethrow_preserves_address_witness :
    (∀ (al : Nat) (u : UStack) (p n : Nat), n % al = 0 →
        UStack.replaceLast al u p n n = .ok (p, u))
    ∧ ∃ mf hdr,
        catchApi witCfg (.interceptT (.thr 5 24) (.ret 5) (.rethrowTop 9 24)) witM
          = .ok (.error 9, mf)
        ∧ mf.log = witM.log ++ [hdr, hdr]
        ∧ mf.ust.b = witM.ust.b
        ∧ mf.ust.h.live = witM.ust.h.live
        ∧ mf.recs = witM.recs
        ∧ mf.handles = witM.handles :=
  C5_rethrow_preserves_address witCfg witM 5 9 24 24 rfl (by decide)
    (by decide) (by decide) (by decide) (by decide)

/-- C6: in Stack::replace_last, if the old top allocation was inline and the
new size is strictly smaller, the re-allocation into the bounded buffer
always succeeds: the operation completes without reaching the None branch
that the source consumes with unwrap_unchecked (which the model would report
as the replaceNone error rather than an ok result). -/
theorem C6_shrink_refits_inline (al : Nat) (u : UStack) (oldPtr oldN newN : Nat)
    (hal : 0 < al) (holdA : oldN % al = 0) (hnewA : newN % al = 0)
    (hlt : newN < oldN)
    (hinline : u.b.containsAllocated oldPtr oldN = true)
    (htop : oldN ≤ u.b.len) (hlenLe : u.b.len ≤ u.b.capacity) :
    ∃ p u2, u.replaceLast al oldPtr oldN newN = .ok (p, u2) := by
  have hpopeq : UStack.pop al u oldPtr oldN
      = .ok ⟨⟨u.b.capacity, u.b.base, u.b.len - oldN⟩, u.h⟩ := by
    have h1 : BoundedStack.popUnchecked al u.b oldN
        = .ok ⟨u.b.capacity, u.b.base, u.b.len - oldN⟩ := by
      unfold BoundedStack.popUnchecked
      rw [if_neg (by simp [holdA]), if_neg (by omega)]
    simp [UStack.pop, hinline, h1]
  by_cases h0 : newN = 0
  · subst h0
    have h2 : BoundedStack.tryPush al ⟨u.b.capacity, u.b.base, u.b.len - oldN⟩ 0
        = .ok (some al, ⟨u.b.capacity, u.b.base, u.b.len - oldN⟩) := by
      unfold BoundedStack.tryPush
      rw [if_neg (by simp), if_pos rfl]
    refine ⟨al, ⟨⟨u.b.capacity, u.b.base, u.b.len - oldN⟩, u.h⟩, ?_⟩
    unfold UStack.replaceLast
    rw [if_neg (by simp), if_neg (by omega)]
    simp [hpopeq, hinline, hlt, h2]
  · have h2 : BoundedStack.tryPush al ⟨u.b.capacity, u.b.base, u.b.len - oldN⟩ newN
        = .ok (some (u.b.base + (u.b.len - oldN)),
            ⟨u.b.capacity, u.b.base, u.b.len - oldN + newN⟩) := by
      unfold BoundedStack.tryPush
      rw [if_neg (by simp [hnewA]), if_neg h0,
        if_neg (show ¬ u.b.capacity - (u.b.len - oldN) < newN by omega)]
    refine ⟨u.b.base + (u.b.len - oldN),
      ⟨⟨u.b.capacity, u.b.base, u.b.len - oldN + newN⟩, u.h⟩, ?_⟩
    unfold UStack.replaceLast
    rw [if_neg (by simp [hnewA]), if_neg (by omega)]
    simp [hpopeq, hinline, hlt, h2]

/-- C6 witness: shrinking a 16-byte top inline element to 8 bytes. -/
theorem C6_shrink_refits_inline_witness :
    ∃ p u2, UStack.replaceLast 8 ⟨⟨4096, 1024, 16⟩, ⟨0, []⟩⟩ 1024 16 8
      = .ok (p, u2) :=
  C6_shrink_refits_inline 8 ⟨⟨4096, 1024, 16⟩, ⟨0, []⟩⟩ 1024 16 8
    (by decide) (by decide) (by decide) (by decide) (by decide) (by decide)
    (by decide)

/-- C9: the bounded inline buffer's try_push contract. For a positive
aligned size, try_push returns a pointer exactly when the remaining capacity
is at least the request; the returned pointer is the aligned address right
after the occupied prefix, within the buffer and disjoint from every byte of
the live region. try_push(0) always succeeds with the aligned non-null
dangling pointer and leaves the occupancy unchanged. -/
theorem C9_try_push_contract (al : Nat) (s : BoundedStack) (n : Nat)
    (hal : 0 < al) (hn : n % al = 0)
    (hlenA : s.len % al = 0) (hlenLe : s.len ≤ s.capacity)
    (hbase : s.base % al = 0) :
    (0 < n →
      ((∃ p s2, s.tryPush al n = .ok (some p, s2)) ↔ n ≤ s.capacity - s.len))
    ∧ (0 < n → n ≤ s.capacity - s.len →
        s.tryPush al n
            = .ok (some (s.base + s.len), ⟨s.capacity, s.base, s.len + n⟩)
          ∧ (s.base + s.len) % al = 0
          ∧ s.len + n ≤ s.capacity
          ∧ ∀ q, s.base ≤ q → q < s.base + s.len →
              ¬ (s.base + s.len ≤ q ∧ q < s.base + s.len + n))
    ∧ (s.tryPush al 0 = .ok (some al, s) ∧ al % al = 0 ∧ al ≠ 0) := by
  have halne : ¬ n % al ≠ 0 := by simp [hn]
  have hsome : 0 < n → ¬ s.capacity - s.len < n → s.tryPush al n
      = .ok (some (s.base + s.len), ⟨s.capacity, s.base, s.len + n⟩) := by
    intro hpos hle
    unfold BoundedStack.tryPush
    rw [if_neg halne, if_neg (by omega), if_neg hle]
  refine ⟨?_, ?_, ?_, Nat.mod_self al, by omega⟩
  · intro hpos
    by_cases hover : s.capacity - s.len < n
    · have heq : s.tryPush al n = .ok (none, s) := by
        unfold BoundedStack.tryPush
        rw [if_neg halne, if_neg (by omega), if_pos hover]
      constructor
      · rintro ⟨p, s2, hps⟩
        rw [heq] at hps
        simp at hps
      · intro hc
        omega
    · exact iff_of_true ⟨_, _, hsome hpos hover⟩ (by omega)
  · intro hpos hle
    refine ⟨hsome hpos (by omega), by simp [Nat.add_mod, hbase, hlenA],
      by omega, ?_⟩
    intro q h1 h2
    omega
  · unfold BoundedStack.tryPush
    rw [if_neg (by simp), if_pos rfl]

/-- C9 witness: the contract at a concrete buffer and request. -/
theorem C9_try_push_contract_witness :
    (0 < 32 →
      ((∃ p s2, BoundedStack.tryPush 16 ⟨4096, 65536, 0⟩ 32 = .ok (some p, s2))
        ↔ 32 ≤ (4096 : Nat) - 0))
    ∧ (0 < 32 → 32 ≤ (4096 : Nat) - 0 →
        BoundedStack.tryPush 16 ⟨4096, 65536, 0⟩ 32
            = .ok (some (65536 + 0), ⟨4096, 65536, 0 + 32⟩)
          ∧ (65536 + 0) % 16 = 0
          ∧ 0 + 32 ≤ 4096
          ∧ ∀ q, 65536 ≤ q → q < 65536 + 0 →
              ¬ (65536 + 0 ≤ q ∧ q < 65536 + 0 + 32))
    ∧ (BoundedStack.tryPush 16 ⟨4096, 65536, 0⟩ 0 = .ok (some 16, ⟨4096, 65536, 0⟩)
        ∧ 16 % 16 = 0 ∧ (16 : Nat) ≠ 0) :=
  C9_try_push_contract 16 ⟨4096, 65536, 0⟩ 32 (by decide) (by decide)
    (by decide) (by decide) (by decide)

/-- C7: catch(func) behaves exactly as intercept(func) followed, in the error
case, by dropping the in-flight handle and surfacing only the payload: the
same Ok result when the function returns, the same Err payload when it
throws, with the record released by the handle's drop. -/
theorem C7_catch_is_intercept_drop {V : Type} (c : Cfg) (body : Comp V)
    (m : Machine V) :
    catchApi c body m = catchViaIntercept c body m := by
  unfold catchApi catchViaIntercept interceptApi dropHandle
  cases hr : run c body m with
  | error e => rfl
  | ok p =>
    obtain ⟨out, m1⟩ := p
    cases out with
    | norm r => rfl
    | unw hdr =>
      dsimp only
      cases hrec : m1.recs with
      | nil => rfl
      | cons hd rest =>
        obtain ⟨addr, sz, v⟩ := hd
        dsimp only
        by_cases he : addr + c.hOff = hdr
        · simp only [if_pos he]
        · simp only [if_neg he]

/-- C8: when intercept catches a thrown exception, dropping the returned
in-flight handle without rethrowing brings the thread-local exception stack
back to exactly its state before the intercepted throw: the bounded buffer's
length (indeed the whole bounded buffer), the record list, the live heap
blocks, and the handle list are all restored. -/
theorem C8_drop_restores_stack {V : Type} (c : Cfg) (m : Machine V) (v : V)
    (szE : Nat)
    (hal : 0 < c.align)
    (hlenA : m.ust.b.len % c.align = 0)
    (hlenLe : m.ust.b.len ≤ m.ust.b.capacity)
    (hrange : m.ust.b.base + m.ust.b.capacity ≤ heapBase)
    (hfit : m.ust.h.nextOff + c.allocSize szE < 2 ^ 63) :
    ∃ hd m1 mf,
      interceptApi c (.thr v szE) m = .ok (.error (v, hd), m1)
      ∧ dropHandle c hd m1 = .ok mf
      ∧ mf.ust.b.len = m.ust.b.len
      ∧ mf.ust.b = m.ust.b
      ∧ mf.ust.h.live = m.ust.h.live
      ∧ mf.recs = m.recs
      ∧ mf.handles = m.handles := by
  obtain ⟨ex, u1, hpush, hcap, hbase, hlA, hlL, hno1, hno2, hpop⟩ :=
    UStack.push_spec c.align m.ust (c.allocSize szE) hal
      (roundUp_mod _ _ hal) hlenA hlenLe hrange hfit
  have hpop1 := hpop u1 rfl rfl
  refine ⟨(ex, c.allocSize szE),
    ⟨u1, (ex, c.allocSize szE, v) :: m.recs, m.handles,
      m.log ++ [ex + c.hOff], m.caught ++ [v]⟩,
    ⟨⟨m.ust.b, ⟨u1.h.nextOff, m.ust.h.live⟩⟩, m.recs, m.handles,
      m.log ++ [ex + c.hOff], m.caught ++ [v]⟩,
    ?_, ?_, rfl, rfl, rfl, rfl, rfl⟩
  · simp [interceptApi, run, excPush, hpush]
  · simp [dropHandle, excPop, hpop1]

/-- C8 witness: a concrete intercept and drop through the fixture layout. -/
theorem C8_drop_restores_stack_witness :
    ∃ hd m1 mf,
      interceptApi witCfg (.thr 3 24) witM = .ok (.error (3, hd), m1)
      ∧ dropHandle witCfg hd m1 = .ok mf
      ∧ mf.ust.b.len = witM.ust.b.len
      ∧ mf.ust.b = witM.ust.b
      ∧ mf.ust.h.live = witM.ust.h.live
      ∧ mf.recs = witM.recs
      ∧ mf.handles = witM.handles :=
  C8_drop_restores_stack witCfg witM 3 24 (by decide) (by decide) (by decide)
    (by decide) (by decide)

/-- C10: zero-byte elements never reach the heap. Pushing 0 bytes onto the
heterogeneous stack is served entirely by the bounded buffer's zero-size
path — the returned pointer is the aligned dangling pointer (address equal to
the alignment) and the whole state is unchanged — and the matching pop routes
to the bounded buffer as a no-op because contains_allocated(ptr, 0) is
unconditionally true for every pointer. The heap fallback, whose alloc panics
on a zero size, is never invoked. -/
theorem C10_zero_size_no_heap (al : Nat) (u : UStack) (p : Nat) :
    u.push al 0 = .ok (al, u)
    ∧ u.pop al p 0 = .ok u
    ∧ (∀ q, u.b.containsAllocated q 0 = true)
    ∧ (∀ hp : Heap, Heap.alloc al hp 0 = .error .zeroAlloc) := by
  refine ⟨?_, ?_, fun q => containsAllocated_zero _ q, fun hp => ?_⟩
  · simp [UStack.push, BoundedStack.tryPush]
  · simp [UStack.pop, containsAllocated_zero, BoundedStack.popUnchecked]
  · simp [Heap.alloc, heapAllocRaw]

end Lithium
